import Mathlib

/-!
Shallow embedding of the iron-condor screener core
(`examples/rest/options-iron-condor/screener.py`).

Python floats used in the condor-construction and ranking arithmetic are
modelled as exact rationals (`ℚ`); `round(x, n)` is Python 3 banker's
rounding (round-half-to-even), modelled exactly by `roundHalfEven`.
The transcendental Black–Scholes branch is modelled over `ℝ`.
-/

namespace CondorScreener

/-- One option contract row as extracted by `get_options_chain`:
strike, bid, ask, volume, open interest. -/
structure Leg where
  strike : ℚ
  bid : ℚ
  ask : ℚ
  volume : ℕ
  open_interest : ℕ
deriving DecidableEq

/-- The `IronCondor` dataclass of the source.  `call_spread` and
`put_spread` are `(sell_strike, buy_strike)` pairs, `profit_zone` is
`(lower, upper)`. -/
structure IronCondor where
  expiration : String
  call_spread : ℚ × ℚ
  put_spread : ℚ × ℚ
  net_credit : ℚ
  max_profit : ℚ
  max_loss : ℚ
  profit_zone : ℚ × ℚ
  probability_of_profit : ℚ
  risk_reward_ratio : ℚ
  days_to_expiration : ℤ
  spot_price : ℚ
deriving DecidableEq

/-- Python 3 `round` to an integer: round half to even (banker's rounding). -/
def roundHalfEven (q : ℚ) : ℤ :=
  if q - ⌊q⌋ < 1/2 then ⌊q⌋
  else if 1/2 < q - ⌊q⌋ then ⌊q⌋ + 1
  else if ⌊q⌋ % 2 = 0 then ⌊q⌋ else ⌊q⌋ + 1

/-- Python `round(q, 2)`. -/
def round2 (q : ℚ) : ℚ := (roundHalfEven (q * 100) : ℚ) / 100

/-- Python `round(q, 1)`. -/
def round1 (q : ℚ) : ℚ := (roundHalfEven (q * 10) : ℚ) / 10

/-- Midpoint premium `(bid + ask) / 2` of a leg. -/
def midpoint (l : Leg) : ℚ := (l.bid + l.ask) / 2

/-- Liquidity test of `construct_iron_condors`:
`volume >= min_volume (5)` and `open_interest >= min_open_interest (25)`. -/
def isLiquid (l : Leg) : Bool := 5 ≤ l.volume && 25 ≤ l.open_interest

/-- The ordering used by `sorted(..., key=lambda x: x['strike'])`. -/
def strikeLE (a b : Leg) : Prop := a.strike ≤ b.strike

instance : DecidableRel strikeLE :=
  fun a b => inferInstanceAs (Decidable (a.strike ≤ b.strike))

instance : IsTotal Leg strikeLE := ⟨fun a b => le_total a.strike b.strike⟩

instance : IsTrans Leg strikeLE := ⟨fun _ _ _ h h' => le_trans h h'⟩

/-- `sorted(..., key=lambda x: x['strike'])`.  Python's `sorted` is a stable
sort; a stable sort's output is uniquely determined by the key order, so the
structurally recursive stable `insertionSort` models it exactly. -/
def sortByStrike (legs : List Leg) : List Leg :=
  legs.insertionSort strikeLE

/-- The liquidity-filtered, strike-sorted leg list (`liquid_calls` /
`liquid_puts` before truncation). -/
def liquidSorted (legs : List Leg) : List Leg :=
  sortByStrike (legs.filter isLiquid)

/-- The list after the `[:max_options]` truncation with `max_options = 50`. -/
def truncatedLegs (legs : List Leg) : List Leg :=
  (liquidSorted legs).take 50

/-- Pairs `(l[i], l[j])` with `i < j`, in the order of the two call loops
(`for i, call_sell in enumerate(...)`, `for j, call_buy in
enumerate(liquid_calls[i+1:], i+1)`). -/
def ordPairs : List Leg → List (Leg × Leg)
  | [] => []
  | x :: xs => (xs.map (fun y => (x, y))) ++ ordPairs xs

/-- Worker for `sellBuyPairs`; `acc` is the already-passed front of the
list (`liquid_puts[:k]`). -/
def sellBuyPairsGo (acc : List Leg) : List Leg → List (Leg × Leg)
  | [] => []
  | p :: rest => (acc.map (fun b => (p, b))) ++ sellBuyPairsGo (acc ++ [p]) rest

/-- Pairs `(l[k], l[j])` with `j < k`, in the order of the two put loops
(`for k, put_sell in enumerate(...)`, `for j, put_buy in
enumerate(liquid_puts[:k])`). -/
def sellBuyPairs (l : List Leg) : List (Leg × Leg) := sellBuyPairsGo [] l

/-- Net credit of a candidate from leg midpoints:
`call_credit - call_debit + put_credit - put_debit`. -/
def netCreditOf (cs cb ps pb : Leg) : ℚ :=
  midpoint cs - midpoint cb + midpoint ps - midpoint pb

/-- Total width `call_spread_width + put_spread_width` of a candidate. -/
def totalWidthOf (cs cb ps pb : Leg) : ℚ :=
  (cb.strike - cs.strike) + (ps.strike - pb.strike)

/-- Max loss `total_width - net_credit` of a candidate. -/
def maxLossOf (cs cb ps pb : Leg) : ℚ :=
  totalWidthOf cs cb ps pb - netCreditOf cs cb ps pb

/-- The body of the innermost loop of `construct_iron_condors`: the three
`continue` guards, then the `IronCondor(...)` construction.  The source sets
`prob_in_zone = 0.5` (a fixed stand-in; `calculate_black_scholes_probability`
is never called) and stores `round(prob_in_zone * 100, 1)`. -/
def mkCondor (expiration : String) (spot : ℚ) (days : ℤ)
    (cs cb ps pb : Leg) : Option IronCondor :=
  if cs.strike ≤ ps.strike then none
  else if netCreditOf cs cb ps pb ≤ 0 then none
  else if maxLossOf cs cb ps pb ≤ 0 then none
  else some
    { expiration := expiration
      call_spread := (cs.strike, cb.strike)
      put_spread := (ps.strike, pb.strike)
      net_credit := round2 (netCreditOf cs cb ps pb)
      max_profit := round2 (netCreditOf cs cb ps pb)
      max_loss := round2 (maxLossOf cs cb ps pb)
      profit_zone := (ps.strike, cs.strike)
      probability_of_profit := round1 ((1/2) * 100)
      risk_reward_ratio :=
        round2 (netCreditOf cs cb ps pb / maxLossOf cs cb ps pb)
      days_to_expiration := days
      spot_price := spot }

/-- The four nested loops of `construct_iron_condors`, without the
1000-candidate early return: candidates in exact loop order. -/
def allCandidates (expiration : String) (spot : ℚ) (days : ℤ)
    (lc lp : List Leg) : List IronCondor :=
  (ordPairs lc).flatMap (fun cp =>
    (sellBuyPairs lp).filterMap (fun pp =>
      mkCondor expiration spot days cp.1 cp.2 pp.1 pp.2))

/-- `construct_iron_condors`.  The `len(iron_condors) >= 1000` early return
(checked right after each append) is modelled as `List.take 1000` of the
full enumeration, which returns exactly the same list. -/
def construct_iron_condors (expiration : String) (spot : ℚ) (days : ℤ)
    (calls puts : List Leg) : List IronCondor :=
  if calls = [] ∨ puts = [] then []
  else if (liquidSorted calls).length < 2 ∨ (liquidSorted puts).length < 2 then []
  else if days ≤ 0 then []
  else (allCandidates expiration spot days
          (truncatedLegs calls) (truncatedLegs puts)).take 1000

/-- Ranking keys accepted by the `--criteria` flag
(`choices=['credit', 'probability', 'risk_reward']`). -/
inductive RankKey
  | credit
  | probability
  | risk_reward
deriving DecidableEq

/-- The sort key used by each criterion. -/
def keyOf : RankKey → IronCondor → ℚ
  | RankKey.credit, ic => ic.net_credit
  | RankKey.probability, ic => ic.probability_of_profit
  | RankKey.risk_reward, ic => ic.risk_reward_ratio

/-- Descending order on a rank key; models the stable
`sort(key=..., reverse=True)` / `sorted(key=..., reverse=True)` calls. -/
def keyGE (k : RankKey) (a b : IronCondor) : Prop := keyOf k b ≤ keyOf k a

instance (k : RankKey) : DecidableRel (keyGE k) :=
  fun a b => inferInstanceAs (Decidable (keyOf k b ≤ keyOf k a))

instance (k : RankKey) : IsTotal IronCondor (keyGE k) :=
  ⟨fun a b => le_total (keyOf k b) (keyOf k a)⟩

instance (k : RankKey) : IsTrans IronCondor (keyGE k) :=
  ⟨fun _ _ _ h h' => le_trans h' h⟩

/-- The threshold filter of `find_best_iron_condors`:
`net_credit >= min_net_credit and max_loss <= max_risk and
probability_of_profit >= min_probability`. -/
def passesThresholds (min_net_credit max_risk min_probability : ℚ)
    (ic : IronCondor) : Bool :=
  decide (min_net_credit ≤ ic.net_credit) && decide (ic.max_loss ≤ max_risk) &&
    decide (min_probability ≤ ic.probability_of_profit)

/-- The filter / rank / limit tail of `find_best_iron_condors`: filter by
the three thresholds, then (when non-empty) stable-sort descending by
`net_credit` and keep the first `limit`. -/
def find_best_iron_condors (all_iron_condors : List IronCondor)
    (min_net_credit max_risk min_probability : ℚ) (limit : ℕ) :
    List IronCondor :=
  let filtered_condors :=
    all_iron_condors.filter (passesThresholds min_net_credit max_risk min_probability)
  if filtered_condors.isEmpty then filtered_condors
  else (filtered_condors.insertionSort (keyGE RankKey.credit)).take limit

/-- The criteria sort of `display_results`: a stable descending sort by the
chosen key (argparse restricts `criteria` to the three keys). -/
def display_results (criteria : RankKey) (l : List IronCondor) :
    List IronCondor :=
  match criteria with
  | RankKey.credit => l.insertionSort (keyGE RankKey.credit)
  | RankKey.probability => l.insertionSort (keyGE RankKey.probability)
  | RankKey.risk_reward => l.insertionSort (keyGE RankKey.risk_reward)

/-- The RankerFilter of the spec: threshold filter + credit ranking + result
limit (`find_best_iron_condors`) followed by the caller-chosen criteria
ranking (`display_results`). -/
def rankerFilter (condors : List IronCondor)
    (min_net_credit max_risk min_probability : ℚ) (limit : ℕ)
    (criteria : RankKey) : List IronCondor :=
  display_results criteria
    (find_best_iron_condors condors min_net_credit max_risk min_probability limit)

noncomputable section

/-- The Gauss error function, as computed by `math.erf`. -/
def erf (x : ℝ) : ℝ :=
  (2 / Real.sqrt Real.pi) * ∫ t in (0:ℝ)..x, Real.exp (-(t ^ 2))

/-- The local `norm_cdf` helper: `0.5 * (1 + math.erf(x / math.sqrt(2)))`. -/
def norm_cdf (x : ℝ) : ℝ := (1/2) * (1 + erf (x / Real.sqrt 2))

/-- `calculate_black_scholes_probability(spot, strike, days_to_exp,
volatility)`; the source's default for `volatility` is `0.2`. -/
def calculate_black_scholes_probability (spot strike : ℝ) (days_to_exp : ℤ)
    (volatility : ℝ) : ℝ :=
  if days_to_exp ≤ 0 then (if spot ≤ strike then 1 else 0)
  else
    let time_to_exp : ℝ := (days_to_exp : ℝ) / 365
    if time_to_exp ≤ 0 then (if spot ≤ strike then 1 else 0)
    else
      let d1 := (Real.log (spot / strike) + (1/2) * volatility ^ 2 * time_to_exp) /
        (volatility * Real.sqrt time_to_exp)
      let d2 := d1 - volatility * Real.sqrt time_to_exp
      norm_cdf d2

end

/-! Concrete inputs used by witnesses and counterexamples. -/

/-- Two liquid call legs: strikes 100 and 105, mid premiums 1.05 and 0.55. -/
def demoCalls : List Leg :=
  [⟨100, 1, 11/10, 50, 100⟩, ⟨105, 1/2, 3/5, 50, 100⟩]

/-- Two liquid put legs: strikes 85 and 90, mid premiums 0.25 and 0.45. -/
def demoPuts : List Leg :=
  [⟨85, 1/5, 3/10, 50, 100⟩, ⟨90, 2/5, 1/2, 50, 100⟩]

/-- The single condor the builder emits on `demoCalls` / `demoPuts` at spot
97 and 10 days to expiry. -/
def demoCondor : IronCondor :=
  ⟨"2026-10-22", (100, 105), (90, 85), 7/10, 7/10, 93/10, (90, 100), 50,
    2/25, 10, 97⟩

/-- An illiquid leg (volume 0, open interest 0), dropped by the filter. -/
def junkLeg : Leg := ⟨200, 1, 1, 0, 0⟩

/-- Call legs with a half-cent net credit and a strike 101.35: with puts
`c4Puts` the total spread width is 2.05, an odd number of cents. -/
def c4Calls : List Leg :=
  [⟨100, 12/100, 13/100, 50, 100⟩, ⟨2027/20, 0, 0, 50, 100⟩]

/-- Put legs at strikes 94.3 and 95 with equal midpoints. -/
def c4Puts : List Leg :=
  [⟨943/10, 1/5, 1/5, 50, 100⟩, ⟨95, 1/5, 1/5, 50, 100⟩]

/-- Two liquid call legs at the same strike 100 with different midpoints. -/
def c5Calls : List Leg :=
  [⟨100, 1, 1, 50, 100⟩, ⟨100, 9/10, 9/10, 50, 100⟩]

/-- An arbitrary condor record with a negative probability field. -/
def c6Weird : IronCondor :=
  ⟨"x", (0, 0), (0, 0), 1, 1, 1, (0, 0), -1, 1, 1, 0⟩

/-! Helper lemmas. -/

theorem roundHalfEven_cases (q : ℚ) :
    roundHalfEven q = ⌊q⌋ ∨ roundHalfEven q = ⌊q⌋ + 1 := by
  unfold roundHalfEven
  split_ifs <;> simp

theorem abs_roundHalfEven_sub (q : ℚ) : |(roundHalfEven q : ℚ) - q| ≤ 1/2 := by
  have h0 : (⌊q⌋ : ℚ) ≤ q := Int.floor_le q
  have h1 : q < ⌊q⌋ + 1 := Int.lt_floor_add_one q
  have hcast : ((⌊q⌋ + 1 : ℤ) : ℚ) = (⌊q⌋ : ℚ) + 1 := by push_cast; ring
  unfold roundHalfEven
  split_ifs with ha hb hc
  · rw [abs_sub_comm, abs_of_nonneg (by linarith)]
    linarith
  · rw [hcast, abs_of_nonneg (by linarith)]
    linarith
  · rw [abs_sub_comm, abs_of_nonneg (by linarith)]
    linarith
  · rw [hcast, abs_of_nonneg (by linarith)]
    linarith

theorem abs_round2_sub (q : ℚ) : |round2 q - q| ≤ 1/200 := by
  have h := abs_roundHalfEven_sub (q * 100)
  have h100 : |(100 : ℚ)| = 100 := by norm_num
  rw [round2]
  have heq : (roundHalfEven (q * 100) : ℚ) / 100 - q =
      ((roundHalfEven (q * 100) : ℚ) - q * 100) / 100 := by ring
  rw [heq, abs_div, h100]
  linarith

theorem round2_nonneg {q : ℚ} (h : 0 ≤ q) : 0 ≤ round2 q := by
  have hf : (0 : ℤ) ≤ ⌊q * 100⌋ :=
    Int.floor_nonneg.mpr (mul_nonneg h (by norm_num))
  have hr : (0 : ℤ) ≤ roundHalfEven (q * 100) := by
    rcases roundHalfEven_cases (q * 100) with hc | hc <;> omega
  rw [round2]
  exact div_nonneg (by exact_mod_cast hr) (by norm_num)

theorem round2_quantized (q : ℚ) : ∃ n : ℤ, round2 q = (n : ℚ) / 100 :=
  ⟨roundHalfEven (q * 100), rfl⟩

theorem round1_quantized (q : ℚ) : ∃ n : ℤ, round1 q = (n : ℚ) / 10 :=
  ⟨roundHalfEven (q * 10), rfl⟩

theorem round1_prob_value : round1 ((1/2) * 100) = 50 := by
  with_unfolding_all decide

theorem mem_ordPairs {p : Leg × Leg} {l : List Leg} (h : p ∈ ordPairs l) :
    p.1 ∈ l ∧ p.2 ∈ l := by
  induction l with
  | nil => simp [ordPairs] at h
  | cons x xs ih =>
    rw [ordPairs, List.mem_append] at h
    rcases h with h | h
    · obtain ⟨y, hy, he⟩ := List.mem_map.mp h
      subst he
      exact ⟨List.mem_cons_self x xs, List.mem_cons_of_mem x hy⟩
    · exact ⟨List.mem_cons_of_mem x (ih h).1, List.mem_cons_of_mem x (ih h).2⟩

theorem ordPairs_rel {R : Leg → Leg → Prop} {l : List Leg}
    (hl : l.Pairwise R) {p : Leg × Leg} (h : p ∈ ordPairs l) : R p.1 p.2 := by
  induction l with
  | nil => simp [ordPairs] at h
  | cons x xs ih =>
    rw [ordPairs, List.mem_append] at h
    rw [List.pairwise_cons] at hl
    rcases h with h | h
    · obtain ⟨y, hy, he⟩ := List.mem_map.mp h
      subst he
      exact hl.1 y hy
    · exact ih hl.2 h

theorem mem_sellBuyPairsGo {p : Leg × Leg} {l : List Leg} :
    ∀ {acc : List Leg}, p ∈ sellBuyPairsGo acc l →
      p.1 ∈ l ∧ (p.2 ∈ acc ∨ p.2 ∈ l) := by
  induction l with
  | nil => intro acc h; simp [sellBuyPairsGo] at h
  | cons x xs ih =>
    intro acc h
    rw [sellBuyPairsGo, List.mem_append] at h
    rcases h with h | h
    · obtain ⟨b, hb, he⟩ := List.mem_map.mp h
      subst he
      exact ⟨List.mem_cons_self x xs, Or.inl hb⟩
    · obtain ⟨h1, h2⟩ := ih h
      refine ⟨List.mem_cons_of_mem x h1, ?_⟩
      rcases h2 with h2 | h2
      · rw [List.mem_append] at h2
        rcases h2 with h2 | h2
        · exact Or.inl h2
        · rw [List.mem_singleton] at h2
          exact Or.inr (h2 ▸ List.mem_cons_self x xs)
      · exact Or.inr (List.mem_cons_of_mem x h2)

theorem sellBuyPairsGo_rel {R : Leg → Leg → Prop} {l : List Leg} :
    ∀ {acc : List Leg}, (acc ++ l).Pairwise R →
      ∀ {p : Leg × Leg}, p ∈ sellBuyPairsGo acc l → R p.2 p.1 := by
  induction l with
  | nil => intro acc _ p h; simp [sellBuyPairsGo] at h
  | cons x xs ih =>
    intro acc hp p h
    rw [sellBuyPairsGo, List.mem_append] at h
    rcases h with h | h
    · obtain ⟨b, hb, he⟩ := List.mem_map.mp h
      subst he
      exact (List.pairwise_append.mp hp).2.2 b hb x (List.mem_cons_self x xs)
    · exact ih (by simpa using hp) h

theorem liquidSorted_pairwise (legs : List Leg) :
    (liquidSorted legs).Pairwise strikeLE :=
  List.sorted_insertionSort strikeLE _

theorem truncatedLegs_pairwise (legs : List Leg) :
    (truncatedLegs legs).Pairwise strikeLE :=
  (liquidSorted_pairwise legs).sublist (List.take_sublist _ _)

theorem mkCondor_some {e : String} {spot : ℚ} {days : ℤ} {cs cb ps pb : Leg}
    {ic : IronCondor} (h : mkCondor e spot days cs cb ps pb = some ic) :
    ps.strike < cs.strike ∧ 0 < netCreditOf cs cb ps pb ∧
      0 < maxLossOf cs cb ps pb ∧
      ic = { expiration := e
             call_spread := (cs.strike, cb.strike)
             put_spread := (ps.strike, pb.strike)
             net_credit := round2 (netCreditOf cs cb ps pb)
             max_profit := round2 (netCreditOf cs cb ps pb)
             max_loss := round2 (maxLossOf cs cb ps pb)
             profit_zone := (ps.strike, cs.strike)
             probability_of_profit := round1 ((1/2) * 100)
             risk_reward_ratio :=
               round2 (netCreditOf cs cb ps pb / maxLossOf cs cb ps pb)
             days_to_expiration := days
             spot_price := spot } := by
  unfold mkCondor at h
  split_ifs at h with h1 h2 h3
  exact ⟨not_le.mp h1, not_le.mp h2, not_le.mp h3, (Option.some.inj h).symm⟩

theorem mem_construct {e : String} {spot : ℚ} {days : ℤ}
    {calls puts : List Leg} {ic : IronCondor}
    (h : ic ∈ construct_iron_condors e spot days calls puts) :
    0 < days ∧ ∃ cs cb ps pb : Leg,
      (cs, cb) ∈ ordPairs (truncatedLegs calls) ∧
      (ps, pb) ∈ sellBuyPairs (truncatedLegs puts) ∧
      mkCondor e spot days cs cb ps pb = some ic := by
  unfold construct_iron_condors at h
  split_ifs at h with h1 h2 h3
  · cases h
  · cases h
  · cases h
  refine ⟨lt_of_not_le h3, ?_⟩
  have h' := List.mem_of_mem_take h
  rw [allCandidates, List.mem_flatMap] at h'
  obtain ⟨cp, hcp, h''⟩ := h'
  rw [List.mem_filterMap] at h''
  obtain ⟨pp, hpp, hmk⟩ := h''
  exact ⟨cp.1, cp.2, pp.1, pp.2, hcp, hpp, hmk⟩

theorem construct_fields {e : String} {spot : ℚ} {days : ℤ}
    {calls puts : List Leg} {ic : IronCondor}
    (h : ic ∈ construct_iron_condors e spot days calls puts) :
    ∃ cs cb ps pb : Leg,
      cs ∈ truncatedLegs calls ∧ cb ∈ truncatedLegs calls ∧
      ps ∈ truncatedLegs puts ∧ pb ∈ truncatedLegs puts ∧
      cs.strike ≤ cb.strike ∧ pb.strike ≤ ps.strike ∧
      ps.strike < cs.strike ∧
      0 < netCreditOf cs cb ps pb ∧ 0 < maxLossOf cs cb ps pb ∧ 0 < days ∧
      ic = { expiration := e
             call_spread := (cs.strike, cb.strike)
             put_spread := (ps.strike, pb.strike)
             net_credit := round2 (netCreditOf cs cb ps pb)
             max_profit := round2 (netCreditOf cs cb ps pb)
             max_loss := round2 (maxLossOf cs cb ps pb)
             profit_zone := (ps.strike, cs.strike)
             probability_of_profit := round1 ((1/2) * 100)
             risk_reward_ratio :=
               round2 (netCreditOf cs cb ps pb / maxLossOf cs cb ps pb)
             days_to_expiration := days
             spot_price := spot } := by
  obtain ⟨hd, cs, cb, ps, pb, hcp, hpp, hmk⟩ := mem_construct h
  obtain ⟨hzone, hnc, hml, hic⟩ := mkCondor_some hmk
  obtain ⟨hcs, hcb⟩ := mem_ordPairs hcp
  have hppGo : (ps, pb) ∈ sellBuyPairsGo [] (truncatedLegs puts) := by
    simpa [sellBuyPairs] using hpp
  obtain ⟨hps, hpb'⟩ := mem_sellBuyPairsGo hppGo
  have hpb : pb ∈ truncatedLegs puts := by
    rcases hpb' with h0 | h0
    · cases h0
    · exact h0
  have hord1 : strikeLE cs cb := ordPairs_rel (truncatedLegs_pairwise calls) hcp
  have hord2 : strikeLE pb ps :=
    sellBuyPairsGo_rel (by simpa using truncatedLegs_pairwise puts) hppGo
  exact ⟨cs, cb, ps, pb, hcs, hcb, hps, hpb, hord1, hord2, hzone, hnc, hml,
    hd, hic⟩

theorem mem_find_best {condors : List IronCondor} {minC maxR minP : ℚ}
    {limit : ℕ} {ic : IronCondor}
    (h : ic ∈ find_best_iron_condors condors minC maxR minP limit) :
    minC ≤ ic.net_credit ∧ ic.max_loss ≤ maxR ∧
      minP ≤ ic.probability_of_profit := by
  simp only [find_best_iron_condors] at h
  split_ifs at h with he
  · have hp := (List.mem_filter.mp h).2
    simpa [passesThresholds, and_assoc] using hp
  · have h' := List.mem_of_mem_take h
    rw [List.mem_insertionSort] at h'
    have hp := (List.mem_filter.mp h').2
    simpa [passesThresholds, and_assoc] using hp

theorem find_best_length (condors : List IronCondor) (minC maxR minP : ℚ)
    (limit : ℕ) :
    (find_best_iron_condors condors minC maxR minP limit).length ≤ limit := by
  simp only [find_best_iron_condors]
  split_ifs with he
  · rw [List.isEmpty_iff.mp he]
    exact Nat.zero_le _
  · rw [List.length_take]
    exact min_le_left _ _

theorem mem_display_results {criteria : RankKey} {l : List IronCondor}
    {ic : IronCondor} (h : ic ∈ display_results criteria l) : ic ∈ l := by
  cases criteria <;>
    simpa [display_results, List.mem_insertionSort] using h

theorem display_results_length (criteria : RankKey) (l : List IronCondor) :
    (display_results criteria l).length = l.length := by
  cases criteria <;> simp [display_results, List.length_insertionSort]

theorem display_results_pairwise (criteria : RankKey) (l : List IronCondor) :
    (display_results criteria l).Pairwise (keyGE criteria) := by
  cases criteria <;> exact List.sorted_insertionSort _ _

theorem mem_construct_prob {e : String} {spot : ℚ} {days : ℤ}
    {calls puts : List Leg} {ic : IronCondor}
    (h : ic ∈ construct_iron_condors e spot days calls puts) :
    ic.probability_of_profit = 50 := by
  obtain ⟨cs, cb, ps, pb, _, _, _, _, _, _, _, _, _, _, hic⟩ :=
    construct_fields h
  subst hic
  exact round1_prob_value

/-! Claim theorems. -/

/-- C1: code bug.  Every record emitted by `construct_iron_condors` stores
`probability_of_profit = round(0.5 * 100, 1) = 50.0`, a constant stand-in:
the `calculate_black_scholes_probability` estimate for the profit-zone
boundaries and days-to-expiry is never used, contrary to the claim. -/
theorem probability_is_constant_placeholder (e : String) (spot : ℚ)
    (days : ℤ) (calls puts : List Leg) (ic : IronCondor)
    (h : ic ∈ construct_iron_condors e spot days calls puts) :
    ic.probability_of_profit = 50 :=
  mem_construct_prob h

/-- C1 witness: the demo chain emits a record whose probability field is
the constant 50.0. -/
theorem probability_is_constant_placeholder_witness :
    demoCondor ∈ construct_iron_condors "2026-10-22" 97 10 demoCalls demoPuts ∧
      demoCondor.probability_of_profit = 50 :=
  ⟨by with_unfolding_all decide,
    probability_is_constant_placeholder "2026-10-22" 97 10 demoCalls demoPuts
      demoCondor (by with_unfolding_all decide)⟩

/-- C2 counterexample: the stored `probability_of_profit` is a percentage
(50.0), not a number in [0,1]. -/
theorem probability_unit_interval_cex :
    ¬ (∀ ic ∈ construct_iron_condors "2026-10-22" 97 10 demoCalls demoPuts,
        0 ≤ ic.probability_of_profit ∧ ic.probability_of_profit ≤ 1) := by
  intro hall
  have h := hall demoCondor (by with_unfolding_all decide)
  have hnot : ¬ (0 ≤ demoCondor.probability_of_profit ∧
      demoCondor.probability_of_profit ≤ 1) := by
    with_unfolding_all decide
  exact hnot h

/-- C2 amended: the `probability_of_profit` field of every emitted record
lies in the closed interval [0,100] — it is stored on the percent scale. -/
theorem probability_percent_range (e : String) (spot : ℚ) (days : ℤ)
    (calls puts : List Leg) (ic : IronCondor)
    (h : ic ∈ construct_iron_condors e spot days calls puts) :
    0 ≤ ic.probability_of_profit ∧ ic.probability_of_profit ≤ 100 := by
  rw [mem_construct_prob h]
  norm_num

/-- C2 witness: the record emitted on the demo chain has its probability
field inside [0,100]. -/
theorem probability_percent_range_witness :
    0 ≤ demoCondor.probability_of_profit ∧
      demoCondor.probability_of_profit ≤ 100 :=
  probability_percent_range "2026-10-22" 97 10 demoCalls demoPuts demoCondor
    (by with_unfolding_all decide)

/-- C3: `construct_iron_condors` emits at most 1000 records, equals the
`take 1000` prefix of the full enumeration (the early return at the cap
returns the partial result as an ordinary list), and its output depends on
the leg lists only through the first 50 liquid legs per side (by strike
ascending). -/
theorem construct_honors_caps (e : String) (spot : ℚ) (days : ℤ)
    (calls calls' puts puts' : List Leg)
    (hdays : 0 < days)
    (h1 : 2 ≤ (liquidSorted calls).length)
    (h2 : 2 ≤ (liquidSorted puts).length)
    (h3 : 2 ≤ (liquidSorted calls').length)
    (h4 : 2 ≤ (liquidSorted puts').length)
    (hc : truncatedLegs calls = truncatedLegs calls')
    (hp : truncatedLegs puts = truncatedLegs puts') :
    (construct_iron_condors e spot days calls puts).length ≤ 1000 ∧
    construct_iron_condors e spot days calls puts =
      (allCandidates e spot days (truncatedLegs calls)
        (truncatedLegs puts)).take 1000 ∧
    construct_iron_condors e spot days calls puts =
      construct_iron_condors e spot days calls' puts' := by
  have hne : ∀ l : List Leg, 2 ≤ (liquidSorted l).length → l ≠ [] := by
    intro l hl hnil
    subst hnil
    simp [liquidSorted, sortByStrike, List.insertionSort] at hl
  have e1 : construct_iron_condors e spot days calls puts =
      (allCandidates e spot days (truncatedLegs calls)
        (truncatedLegs puts)).take 1000 := by
    rw [construct_iron_condors,
      if_neg (show ¬(calls = [] ∨ puts = []) by
        push_neg; exact ⟨hne _ h1, hne _ h2⟩),
      if_neg (show ¬((liquidSorted calls).length < 2 ∨
          (liquidSorted puts).length < 2) by
        push_neg; exact ⟨h1, h2⟩),
      if_neg (not_le.mpr hdays)]
  have e2 : construct_iron_condors e spot days calls' puts' =
      (allCandidates e spot days (truncatedLegs calls')
        (truncatedLegs puts')).take 1000 := by
    rw [construct_iron_condors,
      if_neg (show ¬(calls' = [] ∨ puts' = []) by
        push_neg; exact ⟨hne _ h3, hne _ h4⟩),
      if_neg (show ¬((liquidSorted calls').length < 2 ∨
          (liquidSorted puts').length < 2) by
        push_neg; exact ⟨h3, h4⟩),
      if_neg (not_le.mpr hdays)]
  refine ⟨?_, e1, ?_⟩
  · rw [e1, List.length_take]
    exact min_le_left _ _
  · rw [e1, e2, hc, hp]

/-- C3 witness: appending an illiquid leg beyond the considered set leaves
the output unchanged, and the demo output respects the cap. -/
theorem construct_honors_caps_witness :
    (construct_iron_condors "2026-10-22" 97 10 demoCalls demoPuts).length ≤ 1000 ∧
    construct_iron_condors "2026-10-22" 97 10 demoCalls demoPuts =
      (allCandidates "2026-10-22" 97 10 (truncatedLegs demoCalls)
        (truncatedLegs demoPuts)).take 1000 ∧
    construct_iron_condors "2026-10-22" 97 10 demoCalls demoPuts =
      construct_iron_condors "2026-10-22" 97 10 (demoCalls ++ [junkLeg]) demoPuts :=
  construct_honors_caps "2026-10-22" 97 10 demoCalls (demoCalls ++ [junkLeg])
    demoPuts demoPuts (by norm_num)
    (by with_unfolding_all decide) (by with_unfolding_all decide)
    (by with_unfolding_all decide) (by with_unfolding_all decide)
    (by with_unfolding_all decide) (by with_unfolding_all decide)

/-- C4 counterexample: with a half-cent net credit (0.125) and a total
spread width of 2.05, the independently rounded `max_profit` (0.12) and
`max_loss` (1.92) sum to 2.04 ≠ 2.05. -/
theorem credit_width_identity_cex :
    ¬ (∀ ic ∈ construct_iron_condors "2026-10-22" 97 10 c4Calls c4Puts,
        ic.max_profit + ic.max_loss =
          (ic.call_spread.2 - ic.call_spread.1) +
            (ic.put_spread.1 - ic.put_spread.2)) := by
  with_unfolding_all decide

/-- C4 amended: `max_profit + max_loss` equals the sum of the call-spread
and put-spread widths up to the 2-decimal rounding of the two stored
fields: the difference is at most 0.01 in absolute value. -/
theorem credit_width_identity_amended (e : String) (spot : ℚ) (days : ℤ)
    (calls puts : List Leg) (ic : IronCondor)
    (h : ic ∈ construct_iron_condors e spot days calls puts) :
    |ic.max_profit + ic.max_loss -
      ((ic.call_spread.2 - ic.call_spread.1) +
        (ic.put_spread.1 - ic.put_spread.2))| ≤ 1/100 := by
  obtain ⟨cs, cb, ps, pb, _, _, _, _, _, _, _, _, _, _, hic⟩ :=
    construct_fields h
  subst hic
  have h1 := abs_round2_sub (netCreditOf cs cb ps pb)
  have h2 := abs_round2_sub (maxLossOf cs cb ps pb)
  have key : round2 (netCreditOf cs cb ps pb) +
      round2 (maxLossOf cs cb ps pb) -
      ((cb.strike - cs.strike) + (ps.strike - pb.strike)) =
      (round2 (netCreditOf cs cb ps pb) - netCreditOf cs cb ps pb) +
      (round2 (maxLossOf cs cb ps pb) - maxLossOf cs cb ps pb) := by
    simp only [maxLossOf, totalWidthOf]
    ring
  show |round2 (netCreditOf cs cb ps pb) + round2 (maxLossOf cs cb ps pb) -
      ((cb.strike - cs.strike) + (ps.strike - pb.strike))| ≤ 1/100
  rw [key]
  calc |(round2 (netCreditOf cs cb ps pb) - netCreditOf cs cb ps pb) +
      (round2 (maxLossOf cs cb ps pb) - maxLossOf cs cb ps pb)|
      ≤ |round2 (netCreditOf cs cb ps pb) - netCreditOf cs cb ps pb| +
        |round2 (maxLossOf cs cb ps pb) - maxLossOf cs cb ps pb| :=
        abs_add _ _
    _ ≤ 1/100 := by linarith

/-- C4 witness: on the demo chain the stored fields give
|0.70 + 9.30 − 10| = 0 ≤ 0.01. -/
theorem credit_width_identity_amended_witness :
    |demoCondor.max_profit + demoCondor.max_loss -
      ((demoCondor.call_spread.2 - demoCondor.call_spread.1) +
        (demoCondor.put_spread.1 - demoCondor.put_spread.2))| ≤ 1/100 :=
  credit_width_identity_amended "2026-10-22" 97 10 demoCalls demoPuts
    demoCondor (by with_unfolding_all decide)

/-- C5 counterexample: two liquid calls at the same strike produce a record
with `call_spread = (100, 100)` (no strict inequality), and every record
has `probability_of_profit = 50 ∉ [0,1]`. -/
theorem structural_invariants_cex :
    ¬ (∀ ic ∈ construct_iron_condors "2026-10-22" 97 10 c5Calls demoPuts,
        ic.call_spread.1 < ic.call_spread.2 ∧
        ic.put_spread.2 < ic.put_spread.1 ∧
        ic.put_spread.1 < ic.call_spread.1 ∧
        0 < ic.net_credit ∧ 0 < ic.max_loss ∧
        0 ≤ ic.probability_of_profit ∧ ic.probability_of_profit ≤ 1) := by
  with_unfolding_all decide

/-- C5 amended: every emitted record satisfies
`call_spread.1 ≤ call_spread.2` and `put_spread.2 ≤ put_spread.1` (equality
possible when duplicate strikes pass the liquidity filter),
`put_spread.1 < call_spread.1` strictly, `net_credit ≥ 0` and
`max_loss ≥ 0` after 2-decimal rounding (the pre-rounding values are
strictly positive), and `probability_of_profit ∈ [0,100]`. -/
theorem structural_invariants_amended (e : String) (spot : ℚ) (days : ℤ)
    (calls puts : List Leg) (ic : IronCondor)
    (h : ic ∈ construct_iron_condors e spot days calls puts) :
    ic.call_spread.1 ≤ ic.call_spread.2 ∧
    ic.put_spread.2 ≤ ic.put_spread.1 ∧
    ic.put_spread.1 < ic.call_spread.1 ∧
    0 ≤ ic.net_credit ∧ 0 ≤ ic.max_loss ∧
    0 ≤ ic.probability_of_profit ∧ ic.probability_of_profit ≤ 100 := by
  obtain ⟨cs, cb, ps, pb, _, _, _, _, hle1, hle2, hlt, hnc, hml, _, hic⟩ :=
    construct_fields h
  subst hic
  refine ⟨hle1, hle2, hlt, round2_nonneg hnc.le, round2_nonneg hml.le, ?_, ?_⟩
  · show (0:ℚ) ≤ round1 ((1/2) * 100)
    rw [round1_prob_value]
    norm_num
  · show round1 ((1/2) * 100) ≤ 100
    rw [round1_prob_value]
    norm_num

/-- C5 witness: the record emitted on the demo chain satisfies the amended
invariants. -/
theorem structural_invariants_amended_witness :
    demoCondor.call_spread.1 ≤ demoCondor.call_spread.2 ∧
    demoCondor.put_spread.2 ≤ demoCondor.put_spread.1 ∧
    demoCondor.put_spread.1 < demoCondor.call_spread.1 ∧
    0 ≤ demoCondor.net_credit ∧ 0 ≤ demoCondor.max_loss ∧
    0 ≤ demoCondor.probability_of_profit ∧
    demoCondor.probability_of_profit ≤ 100 :=
  structural_invariants_amended "2026-10-22" 97 10 demoCalls demoPuts
    demoCondor (by with_unfolding_all decide)

/-- C6 counterexample: the filter compares the stored (percent-scale)
probability directly with the threshold, so an element of the output need
not satisfy `probability_of_profit * 100 ≥ minProbabilityPct`. -/
theorem ranker_filter_cex :
    ¬ (∀ ic ∈ rankerFilter [c6Weird] 0 10 (-50) 5 RankKey.credit,
        (0:ℚ) ≤ ic.net_credit ∧ ic.max_loss ≤ 10 ∧
          (-50:ℚ) ≤ ic.probability_of_profit * 100) := by
  with_unfolding_all decide

/-- C6 amended: every element of the RankerFilter output satisfies
`net_credit ≥ minNetCredit`, `max_loss ≤ maxRisk` and
`probability_of_profit ≥ minProbabilityPct` (the stored probability is
already in percent, so no ·100 rescaling occurs); the output is
non-increasing in the chosen rank key and its length is at most the
result limit. -/
theorem ranker_filter_sound (condors : List IronCondor)
    (minC maxR minP : ℚ) (limit : ℕ) (criteria : RankKey) (ic : IronCondor)
    (h : ic ∈ rankerFilter condors minC maxR minP limit criteria) :
    (minC ≤ ic.net_credit ∧ ic.max_loss ≤ maxR ∧
      minP ≤ ic.probability_of_profit) ∧
    (rankerFilter condors minC maxR minP limit criteria).Pairwise
      (fun a b => keyOf criteria b ≤ keyOf criteria a) ∧
    (rankerFilter condors minC maxR minP limit criteria).length ≤ limit := by
  refine ⟨mem_find_best (mem_display_results h), ?_, ?_⟩
  · exact display_results_pairwise criteria _
  · rw [rankerFilter, display_results_length]
    exact find_best_length _ _ _ _ _

/-- C6 witness: on a singleton input with thresholds (0, 10, 30), limit 5
and the credit key, the output element passes the thresholds and the
output is sorted and within the limit. -/
theorem ranker_filter_sound_witness :
    ((0:ℚ) ≤ demoCondor.net_credit ∧ demoCondor.max_loss ≤ 10 ∧
      (30:ℚ) ≤ demoCondor.probability_of_profit) ∧
    (rankerFilter [demoCondor] 0 10 30 5 RankKey.credit).Pairwise
      (fun a b => keyOf RankKey.credit b ≤ keyOf RankKey.credit a) ∧
    (rankerFilter [demoCondor] 0 10 30 5 RankKey.credit).length ≤ 5 :=
  ranker_filter_sound [demoCondor] 0 10 30 5 RankKey.credit demoCondor
    (by with_unfolding_all decide)

/-- C7 counterexample: with a zero result limit, the engine returns the
ordinary empty list even though the input condor passes every threshold
(as the limit-1 run shows) — no failure is signaled before the pipeline
runs. -/
theorem config_rejection_cex :
    rankerFilter [demoCondor] (1/10) 10 30 0 RankKey.credit = [] ∧
    rankerFilter [demoCondor] (1/10) 10 30 1 RankKey.credit = [demoCondor] := by
  constructor <;> with_unfolding_all decide

/-- C7 amended: the engine performs no configuration validation — a zero
result limit is not rejected; the pipeline runs and yields an empty list,
indistinguishable from "no opportunities found". -/
theorem config_zero_limit_silent_empty (condors : List IronCondor)
    (minC maxR minP : ℚ) (criteria : RankKey) :
    rankerFilter condors minC maxR minP 0 criteria = [] := by
  have hfb : find_best_iron_condors condors minC maxR minP 0 = [] := by
    simp only [find_best_iron_condors]
    split_ifs with he
    · exact List.isEmpty_iff.mp he
    · simp
  rw [rankerFilter, hfb]
  cases criteria <;> rfl

/-- C8: for a non-positive `days_to_exp`,
`calculate_black_scholes_probability` returns exactly 1.0 when
`spot ≤ strike` and exactly 0.0 otherwise. -/
theorem degenerate_expiry_probability (spot strike : ℝ) (days_to_exp : ℤ)
    (volatility : ℝ) (h : days_to_exp ≤ 0) :
    calculate_black_scholes_probability spot strike days_to_exp volatility =
      if spot ≤ strike then 1 else 0 := by
  rw [calculate_black_scholes_probability, if_pos h]

/-- C8 witness: at spot 100, boundary 105, zero days to expiry, the
probability is exactly 1. -/
theorem degenerate_expiry_probability_witness :
    calculate_black_scholes_probability 100 105 0 (1/5) = 1 :=
  (degenerate_expiry_probability 100 105 0 (1/5) (by norm_num)).trans
    (if_pos (by norm_num))

/-- C9: when fewer than 2 call legs or fewer than 2 put legs survive the
liquidity filter, `construct_iron_condors` returns the empty list without
error, before any enumeration or pricing. -/
theorem insufficient_liquid_legs_empty (e : String) (spot : ℚ) (days : ℤ)
    (calls puts : List Leg)
    (h : (liquidSorted calls).length < 2 ∨ (liquidSorted puts).length < 2) :
    construct_iron_condors e spot days calls puts = [] := by
  rw [construct_iron_condors]
  split_ifs with h1 <;> rfl

/-- C9 witness: a single liquid call leg yields the empty output. -/
theorem insufficient_liquid_legs_empty_witness :
    construct_iron_condors "2026-10-22" 97 10 [⟨100, 1, 1, 50, 100⟩]
      demoPuts = [] :=
  insufficient_liquid_legs_empty "2026-10-22" 97 10 [⟨100, 1, 1, 50, 100⟩]
    demoPuts (Or.inl (by with_unfolding_all decide))

/-- C10: every emitted record stores the 2-decimal rounding of the exact
midpoint-arithmetic net credit, max profit, max loss and risk/reward
ratio, and the 1-decimal rounding of the computed probability times 100;
each stored field is quantized (an integer number of cents, or tenths for
the probability). -/
theorem fields_are_quantized_roundings (e : String) (spot : ℚ) (days : ℤ)
    (calls puts : List Leg) (ic : IronCondor)
    (h : ic ∈ construct_iron_condors e spot days calls puts) :
    ∃ cs cb ps pb : Leg,
      cs ∈ truncatedLegs calls ∧ cb ∈ truncatedLegs calls ∧
      ps ∈ truncatedLegs puts ∧ pb ∈ truncatedLegs puts ∧
      ic.net_credit = round2 (netCreditOf cs cb ps pb) ∧
      ic.max_profit = round2 (netCreditOf cs cb ps pb) ∧
      ic.max_loss = round2 (maxLossOf cs cb ps pb) ∧
      ic.risk_reward_ratio =
        round2 (netCreditOf cs cb ps pb / maxLossOf cs cb ps pb) ∧
      ic.probability_of_profit = round1 ((1/2) * 100) ∧
      (∃ n : ℤ, ic.net_credit = (n : ℚ) / 100) ∧
      (∃ n : ℤ, ic.max_profit = (n : ℚ) / 100) ∧
      (∃ n : ℤ, ic.max_loss = (n : ℚ) / 100) ∧
      (∃ n : ℤ, ic.risk_reward_ratio = (n : ℚ) / 100) ∧
      (∃ n : ℤ, ic.probability_of_profit = (n : ℚ) / 10) := by
  obtain ⟨cs, cb, ps, pb, hcs, hcb, hps, hpb, _, _, _, _, _, _, hic⟩ :=
    construct_fields h
  subst hic
  exact ⟨cs, cb, ps, pb, hcs, hcb, hps, hpb, rfl, rfl, rfl, rfl, rfl,
    round2_quantized _, round2_quantized _, round2_quantized _,
    round2_quantized _, round1_quantized _⟩

/-- C10 witness: the quantized-rounding structure holds for the record
emitted on the demo chain. -/
theorem fields_are_quantized_roundings_witness :
    ∃ cs cb ps pb : Leg,
      cs ∈ truncatedLegs demoCalls ∧ cb ∈ truncatedLegs demoCalls ∧
      ps ∈ truncatedLegs demoPuts ∧ pb ∈ truncatedLegs demoPuts ∧
      demoCondor.net_credit = round2 (netCreditOf cs cb ps pb) ∧
      demoCondor.max_profit = round2 (netCreditOf cs cb ps pb) ∧
      demoCondor.max_loss = round2 (maxLossOf cs cb ps pb) ∧
      demoCondor.risk_reward_ratio =
        round2 (netCreditOf cs cb ps pb / maxLossOf cs cb ps pb) ∧
      demoCondor.probability_of_profit = round1 ((1/2) * 100) ∧
      (∃ n : ℤ, demoCondor.net_credit = (n : ℚ) / 100) ∧
      (∃ n : ℤ, demoCondor.max_profit = (n : ℚ) / 100) ∧
      (∃ n : ℤ, demoCondor.max_loss = (n : ℚ) / 100) ∧
      (∃ n : ℤ, demoCondor.risk_reward_ratio = (n : ℚ) / 100) ∧
      (∃ n : ℤ, demoCondor.probability_of_profit = (n : ℚ) / 10) :=
  fields_are_quantized_roundings "2026-10-22" 97 10 demoCalls demoPuts
    demoCondor (by with_unfolding_all decide)

end CondorScreener
